import Mathlib

/-!
Verification of the streaming event correlator / progress renderer
(`demo_agent/handlers/callback_handler.py`, class `CallbackHandler`).

The handler receives loosely structured keyword-argument records (Python
dicts) and drives a single-slot console progress display (halo spinners),
keeping a ledger `tool_histories` of active tool invocations.

Embedding choices:
* Python values are modelled by the inductive `PyVal` (None, bool, int,
  str, list, dict-as-association-list).  Truthiness, `dict.get`, `len`,
  iteration, `==` (with Python's bool/int identification) and key
  hashability are modelled explicitly; operations that raise in Python
  (e.g. `.get` on a non-dict, `len` of an int, iterating None, an
  unhashable dict key) return `Except PyErr`.
* `time.time()` is modelled by an abstract integer clock passed to the
  handler with each event; the float rounding of the reported duration is
  abstracted to the integer difference.
* Console effects are recorded as a trace of `DCall` values, one per
  `ToolSpinner` / print operation.  A spinner object is identified by an
  allocation counter `sid`.  `ToolSpinner.start` first prints a newline
  and then starts the underlying halo spinner; `stop`, `succeed`, `fail`
  and `info` all stop the underlying halo spinner (halo's persist calls
  stop the animation).  The colorama colour wrapping is display glue and
  is not modelled; label texts are modelled without the colour codes.
* The unused `__init__` attributes `console` and `thinking_spinner` are
  not part of the state.
* On an exception the Python object may be left partially mutated; the
  `Except` embedding does not track state after a raise (no claim below
  depends on it).
-/

/-- A Python value, as far as the handler's code can observe it.
Dicts are association lists (construction sites in scope never build
duplicate keys; `dictSet` replaces in place like a Python dict). -/
inductive PyVal where
  | none : PyVal
  | bool : Bool → PyVal
  | int : Int → PyVal
  | str : String → PyVal
  | list : List PyVal → PyVal
  | dict : List (String × PyVal) → PyVal
deriving BEq, Repr

mutual
/-- Decidable equality for `PyVal` (the automatic derivation does not
handle the nested occurrence under `List`). -/
def PyVal.decEq : (a b : PyVal) → Decidable (a = b)
  | .none, .none => .isTrue rfl
  | .none, .bool _ => .isFalse (by simp)
  | .none, .int _ => .isFalse (by simp)
  | .none, .str _ => .isFalse (by simp)
  | .none, .list _ => .isFalse (by simp)
  | .none, .dict _ => .isFalse (by simp)
  | .bool _, .none => .isFalse (by simp)
  | .bool x, .bool y =>
      if h : x = y then .isTrue (by rw [h]) else .isFalse (by simp [h])
  | .bool _, .int _ => .isFalse (by simp)
  | .bool _, .str _ => .isFalse (by simp)
  | .bool _, .list _ => .isFalse (by simp)
  | .bool _, .dict _ => .isFalse (by simp)
  | .int _, .none => .isFalse (by simp)
  | .int _, .bool _ => .isFalse (by simp)
  | .int x, .int y =>
      if h : x = y then .isTrue (by rw [h]) else .isFalse (by simp [h])
  | .int _, .str _ => .isFalse (by simp)
  | .int _, .list _ => .isFalse (by simp)
  | .int _, .dict _ => .isFalse (by simp)
  | .str _, .none => .isFalse (by simp)
  | .str _, .bool _ => .isFalse (by simp)
  | .str _, .int _ => .isFalse (by simp)
  | .str x, .str y =>
      if h : x = y then .isTrue (by rw [h]) else .isFalse (by simp [h])
  | .str _, .list _ => .isFalse (by simp)
  | .str _, .dict _ => .isFalse (by simp)
  | .list _, .none => .isFalse (by simp)
  | .list _, .bool _ => .isFalse (by simp)
  | .list _, .int _ => .isFalse (by simp)
  | .list _, .str _ => .isFalse (by simp)
  | .list xs, .list ys =>
      match PyVal.decEqList xs ys with
      | .isTrue h => .isTrue (by rw [h])
      | .isFalse h => .isFalse (by simp [h])
  | .list _, .dict _ => .isFalse (by simp)
  | .dict _, .none => .isFalse (by simp)
  | .dict _, .bool _ => .isFalse (by simp)
  | .dict _, .int _ => .isFalse (by simp)
  | .dict _, .str _ => .isFalse (by simp)
  | .dict _, .list _ => .isFalse (by simp)
  | .dict xs, .dict ys =>
      match PyVal.decEqPairs xs ys with
      | .isTrue h => .isTrue (by rw [h])
      | .isFalse h => .isFalse (by simp [h])

def PyVal.decEqList : (xs ys : List PyVal) → Decidable (xs = ys)
  | [], [] => .isTrue rfl
  | [], _ :: _ => .isFalse (by simp)
  | _ :: _, [] => .isFalse (by simp)
  | x :: xs, y :: ys =>
      match PyVal.decEq x y with
      | .isTrue h1 =>
          match PyVal.decEqList xs ys with
          | .isTrue h2 => .isTrue (by rw [h1, h2])
          | .isFalse h2 => .isFalse (by simp [h2])
      | .isFalse h1 => .isFalse (by simp [h1])

def PyVal.decEqPairs : (xs ys : List (String × PyVal)) → Decidable (xs = ys)
  | [], [] => .isTrue rfl
  | [], _ :: _ => .isFalse (by simp)
  | _ :: _, [] => .isFalse (by simp)
  | (k1, v1) :: xs, (k2, v2) :: ys =>
      if hk : k1 = k2 then
        match PyVal.decEq v1 v2 with
        | .isTrue h1 =>
            match PyVal.decEqPairs xs ys with
            | .isTrue h2 => .isTrue (by rw [hk, h1, h2])
            | .isFalse h2 => .isFalse (by simp [h2])
        | .isFalse h1 => .isFalse (by simp [h1])
      else .isFalse (by simp [hk])
end

instance : DecidableEq PyVal := PyVal.decEq

/-- Python exceptions the handler's code can raise. -/
inductive PyErr where
  | attributeError : String → PyErr
  | typeError : String → PyErr
deriving DecidableEq, Repr

/-- Python truthiness (`if v:`). -/
def pyTruthy : PyVal → Bool
  | .none => false
  | .bool b => b
  | .int n => n != 0
  | .str s => s != ""
  | .list xs => !xs.isEmpty
  | .dict kvs => !kvs.isEmpty

def isDict : PyVal → Bool
  | .dict _ => true
  | _ => false

/-- Python hashability of the values `PyVal` can denote: lists and dicts
are unhashable (using one as a dict key raises `TypeError`). -/
def pyHashable : PyVal → Bool
  | .list _ => false
  | .dict _ => false
  | _ => true

/-- First-match lookup in an association list with string keys. -/
def lookupD (kvs : List (String × PyVal)) (k : String) (d : PyVal) : PyVal :=
  match kvs.find? (fun p => p.1 == k) with
  | some p => p.2
  | Option.none => d

/-- Python `v.get(key, default)`: raises `AttributeError` unless `v` is a
dict. -/
def pyGet (v : PyVal) (k : String) (d : PyVal) : Except PyErr PyVal :=
  match v with
  | .dict kvs => .ok (lookupD kvs k d)
  | _ => .error (.attributeError "get")

/-- Python `len(v)`: defined for sized values, raises `TypeError`
otherwise. -/
def pyLen : PyVal → Except PyErr Nat
  | .str s => .ok s.length
  | .list xs => .ok xs.length
  | .dict kvs => .ok kvs.length
  | _ => .error (.typeError "object has no len")

/-- Python `for x in v`: lists yield elements, strings yield one-character
strings, dicts yield their keys; anything else raises `TypeError`. -/
def pyIter : PyVal → Except PyErr (List PyVal)
  | .list xs => .ok xs
  | .str s => .ok (s.data.map fun c => .str c.toString)
  | .dict kvs => .ok (kvs.map fun p => .str p.1)
  | _ => .error (.typeError "object is not iterable")

mutual
/-- Normal form under Python `==`: bools are identified with the ints 0/1
(in Python `True == 1`).  `pyEq` compares normal forms, which makes it an
equivalence relation by construction. -/
def pyKey : PyVal → PyVal
  | .none => .none
  | .bool b => .int (if b then 1 else 0)
  | .int n => .int n
  | .str s => .str s
  | .list xs => .list (pyKeyList xs)
  | .dict kvs => .dict (pyKeyPairs kvs)

def pyKeyList : List PyVal → List PyVal
  | [] => []
  | v :: vs => pyKey v :: pyKeyList vs

def pyKeyPairs : List (String × PyVal) → List (String × PyVal)
  | [] => []
  | (k, v) :: ps => (k, pyKey v) :: pyKeyPairs ps
end

/-- Python `a == b` (and the negation of `a != b`). -/
def pyEq (a b : PyVal) : Bool := decide (pyKey a = pyKey b)

mutual
/-- Python `str(v)` (used by the f-string labels). -/
def pyStr : PyVal → String
  | .none => "None"
  | .bool b => if b then "True" else "False"
  | .int n => toString n
  | .str s => s
  | .list xs => "[" ++ String.intercalate ", " (pyReprList xs) ++ "]"
  | .dict kvs => "\x7b" ++ String.intercalate ", " (pyReprPairs kvs) ++ "\x7d"

/-- Python `repr(v)` (elements of containers are rendered with `repr`). -/
def pyRepr : PyVal → String
  | .none => "None"
  | .bool b => if b then "True" else "False"
  | .int n => toString n
  | .str s => "\x27" ++ s ++ "\x27"
  | .list xs => "[" ++ String.intercalate ", " (pyReprList xs) ++ "]"
  | .dict kvs => "\x7b" ++ String.intercalate ", " (pyReprPairs kvs) ++ "\x7d"

def pyReprList : List PyVal → List String
  | [] => []
  | v :: vs => pyRepr v :: pyReprList vs

def pyReprPairs : List (String × PyVal) → List String
  | [] => []
  | (k, v) :: ps => ("\x27" ++ k ++ "\x27: " ++ pyRepr v) :: pyReprPairs ps
end

/-- One entry of `self.tool_histories`. -/
structure ToolHistory where
  name : PyVal
  startTime : Nat
  inputSize : Nat
deriving DecidableEq, Repr

/-- The mutable state of the `CallbackHandler` instance. -/
structure HState where
  /-- Field `self.current_spinner`: allocation id of the referenced `ToolSpinner`
  object, if any. -/
  currentSpinner : Option Nat
  /-- Field `self.current_tool` (initially Python `None`). -/
  currentTool : PyVal
  /-- Field `self.tool_histories`, insertion-ordered. -/
  histories : List (PyVal × ToolHistory)
  /-- allocation counter for spinner objects. -/
  nextSid : Nat
deriving DecidableEq, Repr

/-- One console/display operation, in emission order. -/
inductive DCall where
  /-- Call `print(data, ...)`; the Bool is the `complete` flag (newline). -/
  | write : PyVal → Bool → DCall
  /-- Method `ToolSpinner.start`: prints an empty line, then halo `start`. -/
  | start : Nat → String → DCall
  | stop : Nat → DCall
  | update : Nat → String → DCall
  | succeed : Nat → String → DCall
  | fail : Nat → String → DCall
  | info : Nat → String → DCall
deriving DecidableEq, Repr

def histFind (h : List (PyVal × ToolHistory)) (k : PyVal) : Option ToolHistory :=
  match h.find? (fun p => pyEq p.1 k) with
  | some p => some p.2
  | Option.none => Option.none

/-- Assignment `self.tool_histories[k] = v`: replaces in place if an `==`-equal key is
present, else appends (Python dict preserves insertion order). -/
def histSet (h : List (PyVal × ToolHistory)) (k : PyVal) (v : ToolHistory) :
    List (PyVal × ToolHistory) :=
  if h.any (fun p => pyEq p.1 k) then
    h.map (fun p => if pyEq p.1 k then (p.1, v) else p)
  else h ++ [(k, v)]

/-- Statement `del self.tool_histories[k]` (only reached when the key is present). -/
def histDel (h : List (PyVal × ToolHistory)) (k : PyVal) :
    List (PyVal × ToolHistory) :=
  h.eraseP (fun p => pyEq p.1 k)

def labelPreparing (name : PyVal) : String :=
  "🛠️  " ++ pyStr name ++ ": Preparing..."

def labelChars (name : PyVal) (n : Nat) : String :=
  "🛠️  " ++ pyStr name ++ ": " ++ toString n ++ " chars"

def labelStarting (name : PyVal) : String :=
  "🔧 Starting " ++ pyStr name ++ "..."

def labelCompleted (name : PyVal) (d : Nat) : String :=
  pyStr name ++ " completed in " ++ toString d ++ "s"

def labelFailed (name : PyVal) (d : Nat) : String :=
  pyStr name ++ " failed after " ++ toString d ++ "s"

/-- Lines 109–127: `if tool_id != self.current_tool:` — stop the previous
spinner if any, record the new tracked id, start a fresh spinner, and
(re)initialize `tool_histories[tool_id]`.  Inserting an unhashable key
raises `TypeError`. -/
def newToolBranch (now : Nat) (toolId toolName : PyVal) (st : HState) :
    Except PyErr (HState × List DCall) :=
  if pyEq toolId st.currentTool then .ok (st, [])
  else
    let trStop : List DCall :=
      match st.currentSpinner with
      | some sid => [.stop sid]
      | Option.none => []
    let sid := st.nextSid
    if pyHashable toolId then
      .ok ({ st with
              currentTool := toolId
              currentSpinner := some sid
              nextSid := sid + 1
              histories := histSet st.histories toolId ⟨toolName, now, 0⟩ },
           trStop ++ [.write (.str "") true, .start sid (labelPreparing toolName)])
    else .error (.typeError "unhashable type")

/-- Lines 129–137: `if tool_id in self.tool_histories:` — compare
`len(tool_input)` with the recorded `input_size`; on strict increase,
record it and update the spinner label.  Membership test of an unhashable
key raises `TypeError`. -/
def progressUpdate (toolId toolName toolInput : PyVal) (st : HState) :
    Except PyErr (HState × List DCall) :=
  if pyHashable toolId then
    match histFind st.histories toolId with
    | some h => do
        let n ← pyLen toolInput
        if h.inputSize < n then
          .ok ({ st with
                  histories := histSet st.histories toolId { h with inputSize := n } },
               match st.currentSpinner with
               | some sid => [.update sid (labelChars toolName n)]
               | Option.none => [])
        else .ok (st, [])
    | Option.none => .ok (st, [])
  else .error (.typeError "unhashable type")

/-- Lines 103–137: `if current_tool_use and current_tool_use.get("input"):`. -/
def handleToolInput (now : Nat) (ctu : PyVal) (st : HState) :
    Except PyErr (HState × List DCall) :=
  if pyTruthy ctu then do
    let inp ← pyGet ctu "input" .none
    if pyTruthy inp then do
      let toolId ← pyGet ctu "toolUseId" .none
      let toolName ← pyGet ctu "name" .none
      let toolInput ← pyGet ctu "input" (.str "")
      let r1 ← newToolBranch now toolId toolName st
      let r2 ← progressUpdate toolId toolName toolInput r1.1
      .ok (r2.1, r1.2 ++ r2.2)
    else .ok (st, [])
  else .ok (st, [])

/-- Lines 144–149: one element of an assistant message's content list. -/
def handleAssistantItem (c : PyVal) (st : HState) : Except PyErr (List DCall) :=
  if isDict c then do
    let toolUse ← pyGet c "toolUse" .none
    if pyTruthy toolUse then do
      let toolName ← pyGet toolUse "name" .none
      match st.currentSpinner with
      | some sid => .ok [.info sid (labelStarting toolName)]
      | Option.none => .ok []
    else .ok []
  else .ok []

def handleAssistantItems : List PyVal → HState → Except PyErr (List DCall)
  | [], _ => .ok []
  | c :: rest, st => do
      let tr ← handleAssistantItem c st
      let trs ← handleAssistantItems rest st
      .ok (tr ++ trs)

/-- Lines 154–182: one element of a user message's content list. -/
def handleUserItem (now : Nat) (c : PyVal) (st : HState) :
    Except PyErr (HState × List DCall) :=
  if isDict c then do
    let toolResult ← pyGet c "toolResult" .none
    if pyTruthy toolResult then do
      let toolId ← pyGet toolResult "toolUseId" .none
      let status ← pyGet toolResult "status" .none
      if pyHashable toolId then
        match histFind st.histories toolId with
        | some info =>
            let duration := now - info.startTime
            let msg :=
              if pyEq status (.str "success") then labelCompleted info.name duration
              else labelFailed info.name duration
            let tr : List DCall :=
              match st.currentSpinner with
              | some sid =>
                  if pyEq status (.str "success") then [.succeed sid msg]
                  else [.fail sid msg]
              | Option.none => []
            .ok ({ st with
                    histories := histDel st.histories toolId
                    currentSpinner := Option.none
                    currentTool := .none }, tr)
        | Option.none => .ok (st, [])
      else .error (.typeError "unhashable type")
    else .ok (st, [])
  else .ok (st, [])

def handleUserItems (now : Nat) : List PyVal → HState → Except PyErr (HState × List DCall)
  | [], st => .ok (st, [])
  | c :: rest, st => do
      let r1 ← handleUserItem now c st
      let r2 ← handleUserItems now rest r1.1
      .ok (r2.1, r1.2 ++ r2.2)

/-- Lines 139–182: `if isinstance(message, dict):` with the
assistant/user role dispatch. -/
def handleMessage (now : Nat) (message : PyVal) (st : HState) :
    Except PyErr (HState × List DCall) :=
  if isDict message then do
    let role ← pyGet message "role" .none
    if pyEq role (.str "assistant") then do
      let contents ← pyGet message "content" (.list [])
      let items ← pyIter contents
      let tr ← handleAssistantItems items st
      .ok (st, tr)
    else if pyEq role (.str "user") then do
      let contents ← pyGet message "content" (.list [])
      let items ← pyIter contents
      handleUserItems now items st
    else .ok (st, [])
  else .ok (st, [])

/-- Method `CallbackHandler.callback_handler(**kwargs)` at abstract time `now`. -/
def callbackHandler (now : Nat) (kwargs : List (String × PyVal)) (st : HState) :
    Except PyErr (HState × List DCall) := do
  let data := lookupD kwargs "data" (.str "")
  let complete := lookupD kwargs "complete" (.bool false)
  let message := lookupD kwargs "message" (.dict [])
  let ctu := lookupD kwargs "current_tool_use" (.dict [])
  let tr0 : List DCall :=
    if pyTruthy data then [.write data (pyTruthy complete)] else []
  let r1 ← handleToolInput now ctu st
  let r2 ← handleMessage now message r1.1
  .ok (r2.1, tr0 ++ r1.2 ++ r2.2)

/-- The state of a freshly constructed `CallbackHandler`. -/
def initState : HState :=
  { currentSpinner := Option.none
    currentTool := .none
    histories := []
    nextSid := 0 }

/-- Deliver a sequence of timestamped events, accumulating the display
trace; aborts at the first raised exception. -/
def runEvents : List (Nat × List (String × PyVal)) → HState →
    Except PyErr (HState × List DCall)
  | [], st => .ok (st, [])
  | (now, kw) :: rest, st => do
      let r1 ← callbackHandler now kw st
      let r2 ← runEvents rest r1.1
      .ok (r2.1, r1.2 ++ r2.2)

/-- Canonical tool-input-fragment event (`current_tool_use` with a
cumulative `input`). -/
def fragEv (tid name inp : PyVal) : List (String × PyVal) :=
  [("current_tool_use", .dict [("toolUseId", tid), ("name", name), ("input", inp)])]

/-- Canonical tool-result event (user-role message with one `toolResult`). -/
def resultEv (tid status : PyVal) : List (String × PyVal) :=
  [("message", .dict
    [("role", .str "user"),
     ("content", .list [.dict [("toolResult",
        .dict [("toolUseId", tid), ("status", status)])]])])]

/-- Canonical tool-start notice (assistant-role message with one `toolUse`). -/
def startedEv (name : PyVal) : List (String × PyVal) :=
  [("message", .dict
    [("role", .str "assistant"),
     ("content", .list [.dict [("toolUse", .dict [("name", name)])]])])]

/-! ### The active-indicator abstraction

A halo spinner is "active" between its `start` and the first of
`stop`/`succeed`/`fail`/`info` (halo's persist methods stop the
animation).  `activeSids tr` is the list of spinner ids active after the
display operations `tr` have been performed. -/

def stepAct (s : List Nat) : DCall → List Nat
  | .start sid _ => if sid ∈ s then s else s ++ [sid]
  | .stop sid => s.erase sid
  | .succeed sid _ => s.erase sid
  | .fail sid _ => s.erase sid
  | .info sid _ => s.erase sid
  | .update _ _ => s
  | .write _ _ => s

def actFold (s : List Nat) (tr : List DCall) : List Nat := tr.foldl stepAct s

def activeSids (tr : List DCall) : List Nat := actFold [] tr

/-- Relation between the handler state and the set of active spinners:
either none is active, or exactly the spinner currently referenced by
`self.current_spinner` is. -/
def ActOk (st : HState) (act : List Nat) : Prop :=
  act = [] ∨ ∃ sid, act = [sid] ∧ st.currentSpinner = some sid

/-- After every step of `tr`, starting from active set `act`, at most one
spinner is active. -/
def SafeFrom (act : List Nat) : List DCall → Prop
  | [] => True
  | c :: tr => (stepAct act c).length ≤ 1 ∧ SafeFrom (stepAct act c) tr

/-- A piece of handler execution is display-safe: the resulting active set
still matches the resulting state, and no intermediate instant had two
active spinners. -/
def StepOk (act : List Nat) (st' : HState) (tr : List DCall) : Prop :=
  ActOk st' (actFold act tr) ∧ SafeFrom act tr

/-- The reachable ledgers have pairwise `==`-distinct keys (a Python dict
cannot hold two equal keys). -/
def HistKeysDistinct (h : List (PyVal × ToolHistory)) : Prop :=
  h.Pairwise (fun p q => pyEq p.1 q.1 = false)

/-- The `finishProgress(succeeded=true)` calls of a display trace. -/
def succeedCalls (tr : List DCall) : List DCall :=
  tr.filter fun c => match c with | .succeed _ _ => true | _ => false

/-! ### Event shapes for which the handler cannot raise (claim C5) -/

/-- Python values accepted by `len`. -/
def isSized : PyVal → Bool
  | .str _ => true
  | .list _ => true
  | .dict _ => true
  | _ => false

/-- Shape condition on `current_tool_use` under which the tool-input
section cannot raise: a falsy value, or a dict whose truthy `input` is
sized and whose `toolUseId` is hashable. -/
def toolUseShapeOk : PyVal → Bool
  | .dict kvs =>
      !pyTruthy (lookupD kvs "input" .none)
      || (isSized (lookupD kvs "input" (.str ""))
          && pyHashable (lookupD kvs "toolUseId" .none))
  | v => !pyTruthy v

/-- A content element of an assistant message that cannot raise: its
truthy `toolUse` must be a dict. -/
def assistantItemOk : PyVal → Bool
  | .dict kvs =>
      !pyTruthy (lookupD kvs "toolUse" .none) || isDict (lookupD kvs "toolUse" .none)
  | _ => true

/-- A content element of a user message that cannot raise: its truthy
`toolResult` must be a dict with a hashable `toolUseId`. -/
def userItemOk : PyVal → Bool
  | .dict kvs =>
      match lookupD kvs "toolResult" .none with
      | .dict rkvs => pyHashable (lookupD rkvs "toolUseId" .none)
      | v => !pyTruthy v
  | _ => true

/-- Shape condition on `message` under which the message section cannot
raise: if the role is recognized, the content must be iterable and each
element well-shaped. -/
def messageShapeOk : PyVal → Bool
  | .dict kvs =>
      if pyEq (lookupD kvs "role" .none) (.str "assistant") = true then
        match pyIter (lookupD kvs "content" (.list [])) with
        | .ok items => items.all assistantItemOk
        | .error _ => false
      else if pyEq (lookupD kvs "role" .none) (.str "user") = true then
        match pyIter (lookupD kvs "content" (.list [])) with
        | .ok items => items.all userItemOk
        | .error _ => false
      else true
  | _ => true

def eventShapeOk (kwargs : List (String × PyVal)) : Bool :=
  toolUseShapeOk (lookupD kwargs "current_tool_use" (.dict []))
  && messageShapeOk (lookupD kwargs "message" (.dict []))

/-- The message carries a recognized role (assistant or user). -/
def roleRecognized : PyVal → Bool
  | .dict kvs =>
      pyEq (lookupD kvs "role" .none) (.str "assistant")
      || pyEq (lookupD kvs "role" .none) (.str "user")
  | _ => false

/-- Condition under which `current_tool_use` matches no recognized shape
(falsy, or no truthy input). -/
def ctuNoShape : PyVal → Bool
  | .dict kvs => !pyTruthy (lookupD kvs "input" PyVal.none)
  | v => !pyTruthy v

/-- The event matches no recognized shape at all. -/
def eventNoShape (kwargs : List (String × PyVal)) : Bool :=
  !pyTruthy (lookupD kwargs "data" (.str ""))
  && ctuNoShape (lookupD kwargs "current_tool_use" (.dict []))
  && !roleRecognized (lookupD kwargs "message" (.dict []))


theorem actFold_append (s : List Nat) (t1 t2 : List DCall) :
    actFold s (t1 ++ t2) = actFold (actFold s t1) t2 :=
  List.foldl_append ..

theorem actFold_nil (s : List Nat) : actFold s [] = s := rfl

theorem actFold_cons (s : List Nat) (c : DCall) (tr : List DCall) :
    actFold s (c :: tr) = actFold (stepAct s c) tr := rfl

theorem ActOk.length_le {st : HState} {act : List Nat} (h : ActOk st act) :
    act.length ≤ 1 := by
  rcases h with h | ⟨sid, h, _⟩ <;> simp [h]

theorem safeFrom_append (act : List Nat) (t1 t2 : List DCall) :
    SafeFrom act (t1 ++ t2) ↔ SafeFrom act t1 ∧ SafeFrom (actFold act t1) t2 := by
  induction t1 generalizing act with
  | nil => simp [SafeFrom, actFold_nil]
  | cons c t1 ih =>
      simp [SafeFrom, actFold_cons, ih, and_assoc]

theorem safeFrom_nil (act : List Nat) : SafeFrom act [] := trivial

theorem prefix_cons_cases {α : Type _} {p : List α} {c : α} {tr : List α}
    (h : p <+: c :: tr) : p = [] ∨ ∃ q, p = c :: q ∧ q <+: tr := by
  rcases h with ⟨t, ht⟩
  cases p with
  | nil => exact Or.inl rfl
  | cons x q =>
      simp only [List.cons_append, List.cons.injEq] at ht
      exact Or.inr ⟨q, by rw [ht.1], ⟨t, ht.2⟩⟩

/-- Bridge: `SafeFrom` is exactly the bound on every prefix of the trace. -/
theorem safeFrom_iff_prefixes (act : List Nat) (tr : List DCall)
    (hact : act.length ≤ 1) :
    SafeFrom act tr ↔ ∀ p, p <+: tr → (actFold act p).length ≤ 1 := by
  induction tr generalizing act with
  | nil =>
      constructor
      · intro _ p hp
        rw [List.prefix_nil.mp hp]
        exact hact
      · intro _; exact safeFrom_nil act
  | cons c tr ih =>
      constructor
      · rintro ⟨h1, h2⟩ p hp
        rcases prefix_cons_cases hp with rfl | ⟨q, rfl, hq⟩
        · exact hact
        · exact (ih (stepAct act c) h1).mp h2 q hq
      · intro h
        have h1 : (stepAct act c).length ≤ 1 := by
          have := h [c] ⟨tr, rfl⟩
          simpa [actFold] using this
        refine ⟨h1, (ih (stepAct act c) h1).mpr ?_⟩
        intro q hq
        have := h (c :: q) (by rcases hq with ⟨t, ht⟩; exact ⟨t, by simp [ht]⟩)
        simpa [actFold_cons] using this

theorem stepOk_comp {act : List Nat} {st1 st2 : HState} {t1 t2 : List DCall}
    (h1 : StepOk act st1 t1) (h2 : StepOk (actFold act t1) st2 t2) :
    StepOk act st2 (t1 ++ t2) := by
  refine ⟨?_, ?_⟩
  · rw [actFold_append]; exact h2.1
  · exact (safeFrom_append act t1 t2).mpr ⟨h1.2, h2.2⟩

theorem stepOk_nil {act : List Nat} {st : HState} (h : ActOk st act) :
    StepOk act st [] :=
  ⟨h, safeFrom_nil act⟩


theorem newToolBranch_step {now : Nat} {toolId toolName : PyVal} {st st' : HState}
    {tr : List DCall} {act : List Nat}
    (hok : newToolBranch now toolId toolName st = .ok (st', tr))
    (hA : ActOk st act) : StepOk act st' tr := by
  cases hsp : st.currentSpinner with
  | none =>
      simp only [newToolBranch, hsp] at hok
      split at hok
      · cases hok; exact stepOk_nil hA
      · split at hok
        · cases hok
          have hact : act = [] := by
            rcases hA with h | ⟨sid0, h, hsp'⟩
            · exact h
            · rw [hsp] at hsp'; cases hsp'
          subst hact
          refine ⟨Or.inr ⟨st.nextSid, ?_, rfl⟩, ?_⟩
          · simp [actFold, stepAct]
          · simp [SafeFrom, stepAct]
        · cases hok
  | some osid =>
      simp only [newToolBranch, hsp] at hok
      split at hok
      · cases hok; exact stepOk_nil hA
      · split at hok
        · cases hok
          rcases hA with h | ⟨sid0, h, hsp'⟩
          · subst h
            refine ⟨Or.inr ⟨st.nextSid, ?_, rfl⟩, ?_⟩
            · simp [actFold, stepAct]
            · simp [SafeFrom, stepAct]
          · subst h
            rw [hsp] at hsp'
            injection hsp' with h'
            subst h'
            refine ⟨Or.inr ⟨st.nextSid, ?_, rfl⟩, ?_⟩
            · simp [actFold, stepAct]
            · simp [SafeFrom, stepAct]
        · cases hok

theorem progressUpdate_step {toolId toolName toolInput : PyVal} {st st' : HState}
    {tr : List DCall} {act : List Nat}
    (hok : progressUpdate toolId toolName toolInput st = .ok (st', tr))
    (hA : ActOk st act) : StepOk act st' tr := by
  cases hsp : st.currentSpinner with
  | none =>
      simp only [progressUpdate, hsp] at hok
      split at hok
      · split at hok
        · cases hlen : pyLen toolInput with
          | error e => rw [hlen] at hok; cases hok
          | ok n =>
              rw [hlen] at hok
              simp only [Except.instMonad, Bind.bind, Except.bind] at hok
              split at hok
              · cases hok
                have hact : act = [] := by
                  rcases hA with h | ⟨sid0, h, hsp'⟩
                  · exact h
                  · rw [hsp] at hsp'; cases hsp'
                subst hact
                exact ⟨Or.inl rfl, trivial⟩
              · cases hok
                exact stepOk_nil hA
        · cases hok
          exact stepOk_nil hA
      · cases hok
  | some sid =>
      simp only [progressUpdate, hsp] at hok
      split at hok
      · split at hok
        · cases hlen : pyLen toolInput with
          | error e => rw [hlen] at hok; cases hok
          | ok n =>
              rw [hlen] at hok
              simp only [Except.instMonad, Bind.bind, Except.bind] at hok
              split at hok
              · cases hok
                refine ⟨?_, ?_⟩
                · simpa [actFold, stepAct, ActOk, hsp] using hA
                · simpa [SafeFrom, stepAct] using hA.length_le
              · cases hok
                exact stepOk_nil hA
        · cases hok
          exact stepOk_nil hA
      · cases hok


theorem handleToolInput_step {now : Nat} {ctu : PyVal} {st st' : HState}
    {tr : List DCall} {act : List Nat}
    (hok : handleToolInput now ctu st = .ok (st', tr))
    (hA : ActOk st act) : StepOk act st' tr := by
  cases hctu : ctu with
  | dict kvs =>
      subst hctu
      simp only [handleToolInput, pyGet, Except.instMonad, Bind.bind, Except.bind] at hok
      split at hok
      · split at hok
        · split at hok
          · cases hok
          · rename_i r1 heq1
            split at hok
            · cases hok
            · rename_i r2 heq2
              cases hok
              have s1 := newToolBranch_step heq1 hA
              exact stepOk_comp s1 (progressUpdate_step heq2 s1.1)
        · cases hok; exact stepOk_nil hA
      · cases hok; exact stepOk_nil hA
  | none =>
      subst hctu
      simp only [handleToolInput, pyTruthy] at hok
      cases hok; exact stepOk_nil hA
  | bool b =>
      subst hctu
      simp only [handleToolInput, pyGet, Except.instMonad, Bind.bind, Except.bind] at hok
      split at hok
      · cases hok
      · cases hok; exact stepOk_nil hA
  | int n =>
      subst hctu
      simp only [handleToolInput, pyGet, Except.instMonad, Bind.bind, Except.bind] at hok
      split at hok
      · cases hok
      · cases hok; exact stepOk_nil hA
  | str s =>
      subst hctu
      simp only [handleToolInput, pyGet, Except.instMonad, Bind.bind, Except.bind] at hok
      split at hok
      · cases hok
      · cases hok; exact stepOk_nil hA
  | list xs =>
      subst hctu
      simp only [handleToolInput, pyGet, Except.instMonad, Bind.bind, Except.bind] at hok
      split at hok
      · cases hok
      · cases hok; exact stepOk_nil hA

theorem handleAssistantItem_step {c : PyVal} {st : HState} {tr : List DCall}
    {act : List Nat}
    (hok : handleAssistantItem c st = .ok tr)
    (hA : ActOk st act) : StepOk act st tr := by
  cases hc : c with
  | dict kvs =>
      subst hc
      simp only [handleAssistantItem, pyGet, isDict, Except.instMonad, Bind.bind,
        Except.bind, if_true] at hok
      split at hok
      · split at hok
        · cases hok
        · split at hok
          · rename_i sid hsp
            cases hok
            refine ⟨?_, ?_⟩
            · rcases hA with h | ⟨sid0, h, hsp'⟩
              · subst h
                exact Or.inl rfl
              · subst h
                rw [hsp] at hsp'
                injection hsp' with h'
                subst h'
                simp [actFold, stepAct, ActOk]
            · rcases hA with h | ⟨sid0, h, hsp'⟩
              · subst h
                simp [SafeFrom, stepAct]
              · subst h
                rw [hsp] at hsp'
                injection hsp' with h'
                subst h'
                simp [SafeFrom, stepAct]
          · cases hok
            exact stepOk_nil hA
      · cases hok
        exact stepOk_nil hA
  | none =>
      subst hc
      simp only [handleAssistantItem, isDict] at hok
      cases hok; exact stepOk_nil hA
  | bool b =>
      subst hc
      simp only [handleAssistantItem, isDict] at hok
      cases hok; exact stepOk_nil hA
  | int n =>
      subst hc
      simp only [handleAssistantItem, isDict] at hok
      cases hok; exact stepOk_nil hA
  | str s =>
      subst hc
      simp only [handleAssistantItem, isDict] at hok
      cases hok; exact stepOk_nil hA
  | list xs =>
      subst hc
      simp only [handleAssistantItem, isDict] at hok
      cases hok; exact stepOk_nil hA

theorem handleAssistantItems_step : ∀ (items : List PyVal) {st : HState}
    {tr : List DCall} {act : List Nat},
    handleAssistantItems items st = .ok tr → ActOk st act → StepOk act st tr := by
  intro items
  induction items with
  | nil =>
      intro st tr act hok hA
      cases hok; exact stepOk_nil hA
  | cons c rest ih =>
      intro st tr act hok hA
      simp only [handleAssistantItems, Except.instMonad, Bind.bind, Except.bind] at hok
      split at hok
      · cases hok
      · rename_i tr1 heq1
        split at hok
        · cases hok
        · rename_i trs heq2
          cases hok
          have s1 := handleAssistantItem_step heq1 hA
          exact stepOk_comp s1 (ih heq2 s1.1)

theorem handleUserItem_step {now : Nat} {c : PyVal} {st st' : HState}
    {tr : List DCall} {act : List Nat}
    (hok : handleUserItem now c st = .ok (st', tr))
    (hA : ActOk st act) : StepOk act st' tr := by
  cases hc : c with
  | dict kvs =>
      subst hc
      simp only [handleUserItem, pyGet, isDict, Except.instMonad, Bind.bind,
        Except.bind, if_true] at hok
      split at hok
      · split at hok
        · cases hok
        · split at hok
          · cases hok
          · split at hok
            · split at hok
              · split at hok
                · rename_i sid hsp
                  split at hok
                  · cases hok
                    refine ⟨?_, ?_⟩
                    · rcases hA with h | ⟨sid0, h, hsp'⟩
                      · subst h
                        exact Or.inl rfl
                      · subst h
                        rw [hsp] at hsp'
                        injection hsp' with h'
                        subst h'
                        refine Or.inl ?_
                        simp [actFold, stepAct]
                    · rcases hA with h | ⟨sid0, h, hsp'⟩
                      · subst h
                        simp [SafeFrom, stepAct]
                      · subst h
                        rw [hsp] at hsp'
                        injection hsp' with h'
                        subst h'
                        simp [SafeFrom, stepAct]
                  · cases hok
                    refine ⟨?_, ?_⟩
                    · rcases hA with h | ⟨sid0, h, hsp'⟩
                      · subst h
                        exact Or.inl rfl
                      · subst h
                        rw [hsp] at hsp'
                        injection hsp' with h'
                        subst h'
                        refine Or.inl ?_
                        simp [actFold, stepAct]
                    · rcases hA with h | ⟨sid0, h, hsp'⟩
                      · subst h
                        simp [SafeFrom, stepAct]
                      · subst h
                        rw [hsp] at hsp'
                        injection hsp' with h'
                        subst h'
                        simp [SafeFrom, stepAct]
                · rename_i hsp
                  cases hok
                  have hact : act = [] := by
                    rcases hA with h | ⟨sid0, h, hsp'⟩
                    · exact h
                    · rw [hsp] at hsp'; cases hsp'
                  subst hact
                  exact ⟨Or.inl rfl, trivial⟩
              · cases hok
                exact stepOk_nil hA
            · cases hok
      · cases hok
        exact stepOk_nil hA
  | none =>
      subst hc
      simp only [handleUserItem, isDict] at hok
      cases hok; exact stepOk_nil hA
  | bool b =>
      subst hc
      simp only [handleUserItem, isDict] at hok
      cases hok; exact stepOk_nil hA
  | int n =>
      subst hc
      simp only [handleUserItem, isDict] at hok
      cases hok; exact stepOk_nil hA
  | str s =>
      subst hc
      simp only [handleUserItem, isDict] at hok
      cases hok; exact stepOk_nil hA
  | list xs =>
      subst hc
      simp only [handleUserItem, isDict] at hok
      cases hok; exact stepOk_nil hA

theorem handleUserItems_step : ∀ (items : List PyVal) {now : Nat} {st st' : HState}
    {tr : List DCall} {act : List Nat},
    handleUserItems now items st = .ok (st', tr) → ActOk st act → StepOk act st' tr := by
  intro items
  induction items with
  | nil =>
      intro now st st' tr act hok hA
      cases hok; exact stepOk_nil hA
  | cons c rest ih =>
      intro now st st' tr act hok hA
      simp only [handleUserItems, Except.instMonad, Bind.bind, Except.bind] at hok
      split at hok
      · cases hok
      · rename_i r1 heq1
        split at hok
        · cases hok
        · rename_i r2 heq2
          cases hok
          have s1 := handleUserItem_step heq1 hA
          exact stepOk_comp s1 (ih heq2 s1.1)

theorem handleMessage_step {now : Nat} {message : PyVal} {st st' : HState}
    {tr : List DCall} {act : List Nat}
    (hok : handleMessage now message st = .ok (st', tr))
    (hA : ActOk st act) : StepOk act st' tr := by
  cases hm : message with
  | dict kvs =>
      subst hm
      simp only [handleMessage, pyGet, isDict, Except.instMonad, Bind.bind,
        Except.bind, if_true] at hok
      split at hok
      · split at hok
        · cases hok
        · split at hok
          · cases hok
          · cases hok
            exact handleAssistantItems_step _ (by assumption) hA
      · split at hok
        · split at hok
          · cases hok
          · exact handleUserItems_step _ hok hA
        · cases hok
          exact stepOk_nil hA
  | none =>
      subst hm
      simp only [handleMessage, isDict] at hok
      cases hok; exact stepOk_nil hA
  | bool b =>
      subst hm
      simp only [handleMessage, isDict] at hok
      cases hok; exact stepOk_nil hA
  | int n =>
      subst hm
      simp only [handleMessage, isDict] at hok
      cases hok; exact stepOk_nil hA
  | str s =>
      subst hm
      simp only [handleMessage, isDict] at hok
      cases hok; exact stepOk_nil hA
  | list xs =>
      subst hm
      simp only [handleMessage, isDict] at hok
      cases hok; exact stepOk_nil hA

theorem callbackHandler_step {now : Nat} {kwargs : List (String × PyVal)}
    {st st' : HState} {tr : List DCall} {act : List Nat}
    (hok : callbackHandler now kwargs st = .ok (st', tr))
    (hA : ActOk st act) : StepOk act st' tr := by
  simp only [callbackHandler, Except.instMonad, Bind.bind, Except.bind] at hok
  split at hok
  · cases hok
  · rename_i r1 heq1
    split at hok
    · cases hok
    · rename_i r2 heq2
      cases hok
      have s0 : StepOk act st
          (if pyTruthy (lookupD kwargs "data" (PyVal.str "")) = true
           then [DCall.write (lookupD kwargs "data" (PyVal.str ""))
                  (pyTruthy (lookupD kwargs "complete" (PyVal.bool false)))]
           else []) := by
        split
        · exact ⟨hA, hA.length_le, trivial⟩
        · exact stepOk_nil hA
      have s1 := handleToolInput_step heq1 s0.1
      have s2 := handleMessage_step heq2 s1.1
      have hc := stepOk_comp s0 (stepOk_comp s1 s2)
      simpa [List.append_assoc] using hc

theorem runEvents_step : ∀ (evs : List (Nat × List (String × PyVal)))
    {st st' : HState} {tr : List DCall} {act : List Nat},
    runEvents evs st = .ok (st', tr) → ActOk st act → StepOk act st' tr := by
  intro evs
  induction evs with
  | nil =>
      intro st st' tr act hok hA
      cases hok; exact stepOk_nil hA
  | cons ev rest ih =>
      intro st st' tr act hok hA
      obtain ⟨now, kw⟩ := ev
      simp only [runEvents, Except.instMonad, Bind.bind, Except.bind] at hok
      split at hok
      · cases hok
      · rename_i r1 heq1
        split at hok
        · cases hok
        · rename_i r2 heq2
          cases hok
          have s1 := callbackHandler_step heq1 hA
          exact stepOk_comp s1 (ih heq2 s1.1)

/-! ### Ledger lemmas -/

theorem pyEq_refl (a : PyVal) : pyEq a a = true := by simp [pyEq]

theorem pyEq_trans {a b c : PyVal} (h1 : pyEq a b = true) (h2 : pyEq b c = true) :
    pyEq a c = true := by
  simp only [pyEq, decide_eq_true_eq] at *
  exact h1.trans h2

theorem histFind_cons (p : PyVal × ToolHistory) (t : List (PyVal × ToolHistory))
    (k : PyVal) :
    histFind (p :: t) k = if pyEq p.1 k = true then some p.2 else histFind t k := by
  simp only [histFind, List.find?]
  cases hp : pyEq p.1 k <;> simp [hp]

theorem histFind_histSet_self (h : List (PyVal × ToolHistory)) (k : PyVal)
    (v : ToolHistory) : histFind (histSet h k v) k = some v := by
  unfold histSet
  split
  · rename_i hany
    induction h with
    | nil => simp at hany
    | cons p t ih =>
        simp only [List.any_cons, Bool.or_eq_true] at hany
        cases hp : pyEq p.1 k with
        | true =>
            simp only [List.map_cons, hp, if_true]
            rw [histFind_cons]
            simp [hp]
        | false =>
            simp only [List.map_cons, hp]
            rw [if_neg (by simp [hp]), histFind_cons]
            simp only [hp]
            rcases hany with hany | hany
            · cases hp ▸ hany
            · simpa using ih hany
  · induction h with
    | nil => simp [histFind_cons, pyEq_refl]
    | cons p t ih =>
        rename_i hany
        simp only [List.any_cons, Bool.or_eq_true, not_or] at hany
        rw [List.cons_append, histFind_cons]
        rw [if_neg (by simp [hany.1])]
        exact ih (by simpa using hany.2)

theorem histFind_histDel_ne (h : List (PyVal × ToolHistory)) {x y : PyVal}
    (hne : pyEq x y = false) :
    histFind (histDel h x) y = histFind h y := by
  induction h with
  | nil => rfl
  | cons p t ih =>
      unfold histDel
      rw [List.eraseP_cons]
      cases hp : pyEq p.1 x with
      | true =>
          simp only [Bool.cond_true]
          rw [histFind_cons]
          have hpy : pyEq p.1 y = false := by
            cases hq : pyEq p.1 y with
            | false => rfl
            | true =>
                have hx : pyEq x p.1 = true := by
                  simp only [pyEq, decide_eq_true_eq] at hp ⊢
                  exact hp.symm
                have := pyEq_trans hx hq
                rw [this] at hne
                cases hne
          rw [if_neg (by simp [hpy])]
      | false =>
          simp only [Bool.cond_false]
          rw [histFind_cons, histFind_cons]
          cases hq : pyEq p.1 y with
          | true => simp
          | false =>
              simp only [Bool.false_eq_true, if_false]
              exact ih

theorem histFind_eq_none (h : List (PyVal × ToolHistory)) (k : PyVal)
    (hall : ∀ p ∈ h, pyEq p.1 k = false) : histFind h k = Option.none := by
  induction h with
  | nil => rfl
  | cons p t ih =>
      rw [histFind_cons, if_neg (by simp [hall p (by simp)])]
      exact ih fun q hq => hall q (by simp [hq])

theorem histFind_histDel_self (h : List (PyVal × ToolHistory)) (k : PyVal)
    (hnd : HistKeysDistinct h) : histFind (histDel h k) k = Option.none := by
  induction h with
  | nil => rfl
  | cons p t ih =>
      unfold histDel
      rw [List.eraseP_cons]
      cases hp : pyEq p.1 k with
      | true =>
          simp only [Bool.cond_true]
          refine histFind_eq_none t k fun q hq => ?_
          have hpq : pyEq p.1 q.1 = false :=
            (List.pairwise_cons.mp hnd).1 q hq
          cases hqk : pyEq q.1 k with
          | false => rfl
          | true =>
              have hkq : pyEq k q.1 = true := by
                simp only [pyEq, decide_eq_true_eq] at hqk ⊢
                exact hqk.symm
              have := pyEq_trans hp hkq
              rw [this] at hpq
              cases hpq
      | false =>
          simp only [Bool.cond_false]
          rw [histFind_cons, if_neg (by simp [hp])]
          exact ih (List.pairwise_cons.mp hnd).2

/-! ### Characterizations of the handler on the canonical event shapes -/

theorem callbackHandler_resultEv (now : Nat) (tid status : PyVal) (st : HState) :
    callbackHandler now (resultEv tid status) st =
      Except.bind
        (Except.bind
          (handleUserItem now
            (.dict [("toolResult", .dict [("toolUseId", tid), ("status", status)])]) st)
          (fun a => .ok (a.1, a.2 ++ [])))
        (fun r2 => .ok (r2.1, r2.2)) := rfl

theorem callbackHandler_fragEv (now : Nat) (tid name inp : PyVal) (st : HState)
    (htr : pyTruthy inp = true) :
    callbackHandler now (fragEv tid name inp) st =
      Except.bind
        (Except.bind (newToolBranch now tid name st) (fun a =>
          Except.bind (progressUpdate tid name inp a.1) (fun b =>
            .ok (b.1, a.2 ++ b.2))))
        (fun r1 => .ok (r1.1, r1.2 ++ [])) := by
  show Except.bind
      (handleToolInput now (.dict [("toolUseId", tid), ("name", name), ("input", inp)]) st)
      (fun r1 => .ok (r1.1, r1.2 ++ [])) = _
  unfold handleToolInput
  rw [show pyGet (PyVal.dict [("toolUseId", tid), ("name", name), ("input", inp)])
        "input" PyVal.none = .ok inp from rfl]
  simp only [Except.instMonad, Bind.bind, Except.bind, htr, if_true]
  rfl

theorem handleUserItem_notfound (now : Nat) (tid status : PyVal) (st : HState)
    (hh : pyHashable tid = true)
    (hf : histFind st.histories tid = Option.none) :
    handleUserItem now
      (.dict [("toolResult", .dict [("toolUseId", tid), ("status", status)])]) st =
      .ok (st, []) := by
  unfold handleUserItem
  rw [show pyGet (PyVal.dict [("toolResult", PyVal.dict [("toolUseId", tid), ("status", status)])])
        "toolResult" PyVal.none =
        .ok (PyVal.dict [("toolUseId", tid), ("status", status)]) from rfl]
  simp only [isDict, if_true, Except.instMonad, Bind.bind, Except.bind,
    pyTruthy, List.isEmpty, Bool.not_false, if_true]
  rw [show pyGet (PyVal.dict [("toolUseId", tid), ("status", status)]) "toolUseId"
        PyVal.none = .ok tid from rfl]
  rw [show pyGet (PyVal.dict [("toolUseId", tid), ("status", status)]) "status"
        PyVal.none = .ok status from rfl]
  simp only [hh, if_true, hf]

theorem handleUserItem_found (now : Nat) (tid status : PyVal) (st : HState)
    (info : ToolHistory)
    (hh : pyHashable tid = true)
    (hf : histFind st.histories tid = some info) :
    handleUserItem now
      (.dict [("toolResult", .dict [("toolUseId", tid), ("status", status)])]) st =
      .ok ({ st with
              histories := histDel st.histories tid
              currentSpinner := Option.none
              currentTool := .none },
           match st.currentSpinner with
           | some sid =>
               if pyEq status (.str "success") = true
               then [DCall.succeed sid (labelCompleted info.name (now - info.startTime))]
               else [DCall.fail sid (labelFailed info.name (now - info.startTime))]
           | Option.none => []) := by
  unfold handleUserItem
  rw [show pyGet (PyVal.dict [("toolResult", PyVal.dict [("toolUseId", tid), ("status", status)])])
        "toolResult" PyVal.none =
        .ok (PyVal.dict [("toolUseId", tid), ("status", status)]) from rfl]
  simp only [isDict, if_true, Except.instMonad, Bind.bind, Except.bind,
    pyTruthy, List.isEmpty, Bool.not_false, if_true]
  rw [show pyGet (PyVal.dict [("toolUseId", tid), ("status", status)]) "toolUseId"
        PyVal.none = .ok tid from rfl]
  rw [show pyGet (PyVal.dict [("toolUseId", tid), ("status", status)]) "status"
        PyVal.none = .ok status from rfl]
  simp only [hh, if_true, hf]
  cases st.currentSpinner <;>
    cases hsucc : pyEq status (PyVal.str "success") <;> simp [hsucc]

theorem newToolBranch_sameId (now : Nat) (tid name : PyVal) (st : HState)
    (heq : pyEq tid st.currentTool = true) :
    newToolBranch now tid name st = .ok (st, []) := by
  unfold newToolBranch
  simp [heq]

theorem newToolBranch_newId (now : Nat) (tid name : PyVal) (st : HState)
    (hne : pyEq tid st.currentTool = false)
    (hh : pyHashable tid = true) :
    newToolBranch now tid name st =
      .ok ({ st with
              currentTool := tid
              currentSpinner := some st.nextSid
              nextSid := st.nextSid + 1
              histories := histSet st.histories tid ⟨name, now, 0⟩ },
           (match st.currentSpinner with
            | some sid => [DCall.stop sid]
            | Option.none => []) ++
           [DCall.write (.str "") true, DCall.start st.nextSid (labelPreparing name)]) := by
  unfold newToolBranch
  simp [hne, hh]

theorem progressUpdate_char (tid name : PyVal) (s : String) (st : HState)
    (h : ToolHistory)
    (hh : pyHashable tid = true)
    (hf : histFind st.histories tid = some h) :
    progressUpdate tid name (.str s) st =
      .ok (if h.inputSize < s.length
           then ({ st with histories := histSet st.histories tid { h with inputSize := s.length } },
                 match st.currentSpinner with
                 | some sid => [DCall.update sid (labelChars name s.length)]
                 | Option.none => [])
           else (st, [])) := by
  unfold progressUpdate
  simp only [hh, if_true, hf, pyLen, Except.instMonad, Bind.bind, Except.bind]
  split <;> rfl

theorem pyTruthy_str {s : String} (hs : s ≠ "") : pyTruthy (.str s) = true := by
  simp [pyTruthy, hs]

theorem str_length_pos {s : String} (hs : s ≠ "") : 0 < s.length := by
  cases s with
  | mk data =>
      cases data with
      | nil => cases hs rfl
      | cons c cs => simp [String.length]

/-! ### The claims -/

/-- C1: Single active slot — for every sequence of events delivered to the
dispatcher (that completes without a Python exception), at most one progress
indicator is active at any instant: every prefix of the emitted display
trace leaves at most one spinner in the started-and-not-stopped state.  In
particular, when a `ToolInputFragment` with a new invocation id arrives
while an indicator is active, the active indicator is stopped before the
new one is started. -/
theorem single_active_slot
    (evs : List (Nat × List (String × PyVal))) (st' : HState) (tr : List DCall)
    (hok : runEvents evs initState = .ok (st', tr)) :
    ∀ p, p <+: tr → (activeSids p).length ≤ 1 := by
  have h := runEvents_step evs hok (Or.inl rfl)
  exact fun p hp => (safeFrom_iff_prefixes [] tr (by simp)).mp h.2 p hp

theorem single_active_slot_witness :
    (activeSids
      [DCall.write (PyVal.str "") true, DCall.start 0 "🛠️  lookup: Preparing...",
       DCall.update 0 "🛠️  lookup: 2 chars", DCall.stop 0,
       DCall.write (PyVal.str "") true, DCall.start 1 "🛠️  search: Preparing...",
       DCall.update 1 "🛠️  search: 3 chars",
       DCall.succeed 1 "search completed in 3s"]).length ≤ 1 :=
  single_active_slot
    [(0, fragEv (.str "A") (.str "lookup") (.str "ab")),
     (1, fragEv (.str "B") (.str "search") (.str "xyz")),
     (4, resultEv (.str "B") (.str "success"))]
    { currentSpinner := Option.none, currentTool := PyVal.none,
      histories := [(PyVal.str "A", ⟨PyVal.str "lookup", 0, 2⟩)], nextSid := 2 }
    [DCall.write (PyVal.str "") true, DCall.start 0 "🛠️  lookup: Preparing...",
     DCall.update 0 "🛠️  lookup: 2 chars", DCall.stop 0,
     DCall.write (PyVal.str "") true, DCall.start 1 "🛠️  search: Preparing...",
     DCall.update 1 "🛠️  search: 3 chars",
     DCall.succeed 1 "search completed in 3s"]
    rfl _ (List.prefix_refl _)

/-- C2 counterexample: in the run fragment(A) · fragment(B) ·
result(A, success) · result(B, success), invocation B is entered into the
ledger (second conjunct) and later receives a successful `ToolResult`,
after which the ledger is empty — yet the only
`finishProgress(succeeded=true)` call in the whole trace is the one
labelled with A's tool name, issued while processing A's result on B's
indicator; B's own successful completion finds `current_spinner` already
`None` and issues none.  So "exactly one finishProgress call with
succeeded=true was issued for that invocation" fails for B (zero calls). -/
theorem correlation_loop_counterexample :
    runEvents [(0, fragEv (.str "A") (.str "lookup") (.str "ab")),
               (1, fragEv (.str "B") (.str "search") (.str "xy"))] initState =
      .ok ({ currentSpinner := some 1, currentTool := PyVal.str "B",
             histories := [(PyVal.str "A", ⟨PyVal.str "lookup", 0, 2⟩),
                           (PyVal.str "B", ⟨PyVal.str "search", 1, 2⟩)],
             nextSid := 2 },
           [DCall.write (PyVal.str "") true, DCall.start 0 "🛠️  lookup: Preparing...",
            DCall.update 0 "🛠️  lookup: 2 chars", DCall.stop 0,
            DCall.write (PyVal.str "") true, DCall.start 1 "🛠️  search: Preparing...",
            DCall.update 1 "🛠️  search: 2 chars"])
    ∧ histFind [(PyVal.str "A", (⟨PyVal.str "lookup", 0, 2⟩ : ToolHistory)),
                (PyVal.str "B", ⟨PyVal.str "search", 1, 2⟩)] (.str "B") =
        some ⟨PyVal.str "search", 1, 2⟩
    ∧ runEvents [(0, fragEv (.str "A") (.str "lookup") (.str "ab")),
                 (1, fragEv (.str "B") (.str "search") (.str "xy")),
                 (3, resultEv (.str "A") (.str "success")),
                 (4, resultEv (.str "B") (.str "success"))] initState =
      .ok ({ currentSpinner := Option.none, currentTool := PyVal.none,
             histories := [], nextSid := 2 },
           [DCall.write (PyVal.str "") true, DCall.start 0 "🛠️  lookup: Preparing...",
            DCall.update 0 "🛠️  lookup: 2 chars", DCall.stop 0,
            DCall.write (PyVal.str "") true, DCall.start 1 "🛠️  search: Preparing...",
            DCall.update 1 "🛠️  search: 2 chars",
            DCall.succeed 1 "lookup completed in 3s"])
    ∧ succeedCalls
        [DCall.write (PyVal.str "") true, DCall.start 0 "🛠️  lookup: Preparing...",
         DCall.update 0 "🛠️  lookup: 2 chars", DCall.stop 0,
         DCall.write (PyVal.str "") true, DCall.start 1 "🛠️  search: Preparing...",
         DCall.update 1 "🛠️  search: 2 chars",
         DCall.succeed 1 "lookup completed in 3s"] =
        [DCall.succeed 1 "lookup completed in 3s"] :=
  ⟨rfl, rfl, rfl, rfl⟩

/-- C2 (amended): for an invocation id present in the ledger that receives a
`ToolResult` with status success *while an indicator is active*, the ledger
no longer contains the id afterwards and exactly one
`finishProgress(succeeded=true)` call is issued at that moment (labelled
with that invocation's recorded tool name); when no indicator is active the
completion still removes the id but issues no display call. -/
theorem correlation_loop_amended (now : Nat) (tid : PyVal) (st : HState)
    (info : ToolHistory) (sid : Nat)
    (hh : pyHashable tid = true)
    (hf : histFind st.histories tid = some info)
    (hsp : st.currentSpinner = some sid)
    (hnd : HistKeysDistinct st.histories) :
    callbackHandler now (resultEv tid (.str "success")) st =
      .ok ({ st with
              histories := histDel st.histories tid
              currentSpinner := Option.none
              currentTool := .none },
           [DCall.succeed sid (labelCompleted info.name (now - info.startTime))])
    ∧ histFind (histDel st.histories tid) tid = Option.none := by
  constructor
  · rw [callbackHandler_resultEv, handleUserItem_found now tid (.str "success") st info hh hf]
    simp [hsp, pyEq_refl]
    rfl
  · exact histFind_histDel_self _ _ hnd

theorem correlation_loop_amended_witness :
    callbackHandler 4 (resultEv (.str "B") (.str "success"))
      { currentSpinner := some 1, currentTool := PyVal.str "B",
        histories := [(PyVal.str "B", ⟨PyVal.str "search", 1, 2⟩)], nextSid := 2 } =
      .ok ({ currentSpinner := Option.none, currentTool := PyVal.none,
             histories := [], nextSid := 2 },
           [DCall.succeed 1 "search completed in 3s"])
    ∧ histFind ([] : List (PyVal × ToolHistory)) (.str "B") = Option.none := by
  have h := correlation_loop_amended 4 (.str "B")
    { currentSpinner := some 1, currentTool := PyVal.str "B",
      histories := [(PyVal.str "B", ⟨PyVal.str "search", 1, 2⟩)], nextSid := 2 }
    ⟨PyVal.str "search", 1, 2⟩ 1 rfl rfl rfl (by simp [HistKeysDistinct])
  exact h

/-- C4: Unknown completion is a no-op — a `ToolResult` whose (hashable)
invocation id is absent from the ledger produces zero display calls and
leaves the handler state (tracked id, active indicator, every ledger
entry) unchanged. -/
theorem unknown_completion_noop (now : Nat) (tid status : PyVal) (st : HState)
    (hh : pyHashable tid = true)
    (hf : histFind st.histories tid = Option.none) :
    callbackHandler now (resultEv tid status) st = .ok (st, []) := by
  rw [callbackHandler_resultEv, handleUserItem_notfound now tid status st hh hf]
  rfl

theorem unknown_completion_noop_witness :
    callbackHandler 7 (resultEv (.str "Z") (.bool false)) initState =
      .ok (initState, []) :=
  unknown_completion_noop 7 (.str "Z") (.bool false) initState rfl rfl

/-- C10: a `ToolResult` for an id X still in the ledger while the handler
tracks a different id Y finalizes the *currently active* indicator (the
one started for Y) with X's recorded tool name, outcome and duration,
removes X from the ledger, clears both the tracked id and the active
indicator (back to Idle), and leaves Y's ledger entry in place with no
indicator attached. -/
theorem evicted_result_finalizes (now : Nat) (x y status : PyVal) (st : HState)
    (infoX infoY : ToolHistory) (sid : Nat)
    (hxy : pyEq x y = false)
    (hh : pyHashable x = true)
    (_hty : st.currentTool = y)
    (hsp : st.currentSpinner = some sid)
    (hfx : histFind st.histories x = some infoX)
    (hfy : histFind st.histories y = some infoY) :
    callbackHandler now (resultEv x status) st =
      .ok ({ st with
              histories := histDel st.histories x
              currentSpinner := Option.none
              currentTool := .none },
           if pyEq status (.str "success") = true
           then [DCall.succeed sid (labelCompleted infoX.name (now - infoX.startTime))]
           else [DCall.fail sid (labelFailed infoX.name (now - infoX.startTime))])
    ∧ histFind (histDel st.histories x) y = some infoY := by
  constructor
  · rw [callbackHandler_resultEv, handleUserItem_found now x status st infoX hh hfx]
    cases hsucc : pyEq status (PyVal.str "success") <;> simp [hsp, hsucc] <;> rfl
  · rw [histFind_histDel_ne st.histories hxy]
    exact hfy

theorem evicted_result_finalizes_witness :
    callbackHandler 5 (resultEv (.str "A") (.str "success"))
      { currentSpinner := some 1, currentTool := PyVal.str "B",
        histories := [(PyVal.str "A", ⟨PyVal.str "lookup", 0, 2⟩),
                      (PyVal.str "B", ⟨PyVal.str "search", 1, 2⟩)], nextSid := 2 } =
      .ok ({ currentSpinner := Option.none, currentTool := PyVal.none,
             histories := [(PyVal.str "B", ⟨PyVal.str "search", 1, 2⟩)], nextSid := 2 },
           [DCall.succeed 1 "lookup completed in 5s"])
    ∧ histFind [(PyVal.str "B", (⟨PyVal.str "search", 1, 2⟩ : ToolHistory))] (.str "B") =
        some ⟨PyVal.str "search", 1, 2⟩ := by
  have h := evicted_result_finalizes 5 (.str "A") (.str "B") (.str "success")
    { currentSpinner := some 1, currentTool := PyVal.str "B",
      histories := [(PyVal.str "A", ⟨PyVal.str "lookup", 0, 2⟩),
                    (PyVal.str "B", ⟨PyVal.str "search", 1, 2⟩)], nextSid := 2 }
    ⟨PyVal.str "lookup", 0, 2⟩ ⟨PyVal.str "search", 1, 2⟩ 1
    rfl rfl rfl rfl rfl rfl
  exact h

/-- C7: ToolStarted is annotation-only — an assistant-role message carrying
a tool-use marker issues a "Starting <toolName>" info annotation on the
currently active indicator when one exists and does nothing otherwise; in
both cases the handler state (tracked id, indicator, ledger) is returned
unchanged. -/
theorem toolstarted_annotation_only (now : Nat) (name : PyVal) (st : HState) :
    callbackHandler now (startedEv name) st =
      .ok (st, match st.currentSpinner with
               | some sid => [DCall.info sid (labelStarting name)]
               | Option.none => []) := by
  cases st with
  | mk sp ct hist ns => cases sp <;> rfl

/-- C3 counterexample: after fragment(A, "abcd") · fragment(B, "x") the
ledger records `observedInputSize = 4` for A while B is tracked.  A further
fragment for A with cumulative input "ab" (length 2 ≤ 4) does *not* leave
`observedInputSize` unchanged and does *not* produce zero display updates:
because A's id differs from the tracked id, its ledger entry is re-created
(size 0) and then an `updateProgress` is emitted, leaving
`observedInputSize = 2 < 4` — the size decreased within the invocation's
lifetime and a display update was triggered by a non-increasing fragment. -/
theorem monotonic_size_counterexample :
    runEvents [(0, fragEv (.str "A") (.str "lookup") (.str "abcd")),
               (1, fragEv (.str "B") (.str "probe") (.str "x"))] initState =
      .ok ({ currentSpinner := some 1, currentTool := PyVal.str "B",
             histories := [(PyVal.str "A", ⟨PyVal.str "lookup", 0, 4⟩),
                           (PyVal.str "B", ⟨PyVal.str "probe", 1, 1⟩)],
             nextSid := 2 },
           [DCall.write (PyVal.str "") true, DCall.start 0 "🛠️  lookup: Preparing...",
            DCall.update 0 "🛠️  lookup: 4 chars", DCall.stop 0,
            DCall.write (PyVal.str "") true, DCall.start 1 "🛠️  probe: Preparing...",
            DCall.update 1 "🛠️  probe: 1 chars"])
    ∧ histFind [(PyVal.str "A", (⟨PyVal.str "lookup", 0, 4⟩ : ToolHistory)),
                (PyVal.str "B", ⟨PyVal.str "probe", 1, 1⟩)] (.str "A") =
        some ⟨PyVal.str "lookup", 0, 4⟩
    ∧ callbackHandler 2 (fragEv (.str "A") (.str "lookup") (.str "ab"))
        { currentSpinner := some 1, currentTool := PyVal.str "B",
          histories := [(PyVal.str "A", ⟨PyVal.str "lookup", 0, 4⟩),
                        (PyVal.str "B", ⟨PyVal.str "probe", 1, 1⟩)],
          nextSid := 2 } =
      .ok ({ currentSpinner := some 2, currentTool := PyVal.str "A",
             histories := [(PyVal.str "A", ⟨PyVal.str "lookup", 2, 2⟩),
                           (PyVal.str "B", ⟨PyVal.str "probe", 1, 1⟩)],
             nextSid := 3 },
           [DCall.stop 1, DCall.write (PyVal.str "") true,
            DCall.start 2 "🛠️  lookup: Preparing...",
            DCall.update 2 "🛠️  lookup: 2 chars"])
    ∧ histFind [(PyVal.str "A", (⟨PyVal.str "lookup", 2, 2⟩ : ToolHistory)),
                (PyVal.str "B", ⟨PyVal.str "probe", 1, 1⟩)] (.str "A") =
        some ⟨PyVal.str "lookup", 2, 2⟩ :=
  ⟨rfl, rfl, rfl, rfl⟩

/-- C3 (amended): for a fragment whose id *is the currently tracked id* and
whose id is in the ledger, a cumulative input length ≤ the recorded
`observedInputSize` leaves the handler state unchanged and produces no
display call, while a strictly greater length records the new value and
triggers exactly one `updateProgress` (when an indicator is active); the
resulting recorded size is `max old new`, so it never decreases while the
invocation stays tracked.  (For a ledger id that is not tracked the entry
is instead re-created, see the counterexample.) -/
theorem monotonic_size_amended (now : Nat) (tid name : PyVal) (s : String)
    (st : HState) (h : ToolHistory)
    (hs : s ≠ "")
    (heq : pyEq tid st.currentTool = true)
    (hh : pyHashable tid = true)
    (hf : histFind st.histories tid = some h) :
    callbackHandler now (fragEv tid name (.str s)) st =
      .ok (if h.inputSize < s.length
           then ({ st with histories := histSet st.histories tid { h with inputSize := s.length } },
                 match st.currentSpinner with
                 | some sid => [DCall.update sid (labelChars name s.length)]
                 | Option.none => [])
           else (st, []))
    ∧ histFind (if h.inputSize < s.length
                then histSet st.histories tid { h with inputSize := s.length }
                else st.histories) tid =
        some { h with inputSize := max h.inputSize s.length } := by
  rcases Nat.lt_or_ge h.inputSize s.length with hlt | hge
  · constructor
    · rw [callbackHandler_fragEv now tid name (.str s) st (pyTruthy_str hs),
          newToolBranch_sameId now tid name st heq]
      simp only [Except.instMonad, Bind.bind, Except.bind]
      rw [progressUpdate_char tid name s st h hh hf, if_pos hlt]
      cases st.currentSpinner <;> simp
    · rw [if_pos hlt, histFind_histSet_self, Nat.max_eq_right (Nat.le_of_lt hlt)]
  · constructor
    · rw [callbackHandler_fragEv now tid name (.str s) st (pyTruthy_str hs),
          newToolBranch_sameId now tid name st heq]
      simp only [Except.instMonad, Bind.bind, Except.bind]
      rw [progressUpdate_char tid name s st h hh hf,
          if_neg (Nat.not_lt.mpr hge)]
      rfl
    · rw [if_neg (Nat.not_lt.mpr hge), hf, Nat.max_eq_left hge]

theorem monotonic_size_amended_witness :
    callbackHandler 5 (fragEv (.str "A") (.str "lookup") (.str "ab"))
      { currentSpinner := some 0, currentTool := PyVal.str "A",
        histories := [(PyVal.str "A", ⟨PyVal.str "lookup", 0, 4⟩)], nextSid := 1 } =
      .ok ({ currentSpinner := some 0, currentTool := PyVal.str "A",
             histories := [(PyVal.str "A", ⟨PyVal.str "lookup", 0, 4⟩)], nextSid := 1 }, [])
    ∧ histFind [(PyVal.str "A", (⟨PyVal.str "lookup", 0, 4⟩ : ToolHistory))] (.str "A") =
        some ⟨PyVal.str "lookup", 0, 4⟩ := by
  have h := monotonic_size_amended 5 (.str "A") (.str "lookup") "ab"
    { currentSpinner := some 0, currentTool := PyVal.str "A",
      histories := [(PyVal.str "A", ⟨PyVal.str "lookup", 0, 4⟩)], nextSid := 1 }
    ⟨PyVal.str "lookup", 0, 4⟩ (by decide) rfl rfl rfl
  exact h

/-- C6 counterexample: fragment(A, "wxyz") · fragment(B, "p") leaves A's
ledger entry at `startedAt = 0`, `observedInputSize = 4`; a further
fragment for A (already present in the ledger) *does* reset the entry: the
new-id branch re-creates it with `startedAt = 2` and size re-counted from
0, ending at ⟨2, 2⟩ — falsifying "a ToolInputFragment for an id already
present in the ledger does not reset that entry's startedAt or
observedInputSize". -/
theorem upsert_counterexample :
    runEvents [(0, fragEv (.str "A") (.str "alpha") (.str "wxyz")),
               (1, fragEv (.str "B") (.str "beta") (.str "p"))] initState =
      .ok ({ currentSpinner := some 1, currentTool := PyVal.str "B",
             histories := [(PyVal.str "A", ⟨PyVal.str "alpha", 0, 4⟩),
                           (PyVal.str "B", ⟨PyVal.str "beta", 1, 1⟩)],
             nextSid := 2 },
           [DCall.write (PyVal.str "") true, DCall.start 0 "🛠️  alpha: Preparing...",
            DCall.update 0 "🛠️  alpha: 4 chars", DCall.stop 0,
            DCall.write (PyVal.str "") true, DCall.start 1 "🛠️  beta: Preparing...",
            DCall.update 1 "🛠️  beta: 1 chars"])
    ∧ runEvents [(0, fragEv (.str "A") (.str "alpha") (.str "wxyz")),
                 (1, fragEv (.str "B") (.str "beta") (.str "p")),
                 (2, fragEv (.str "A") (.str "alpha") (.str "wx"))] initState =
      .ok ({ currentSpinner := some 2, currentTool := PyVal.str "A",
             histories := [(PyVal.str "A", ⟨PyVal.str "alpha", 2, 2⟩),
                           (PyVal.str "B", ⟨PyVal.str "beta", 1, 1⟩)],
             nextSid := 3 },
           [DCall.write (PyVal.str "") true, DCall.start 0 "🛠️  alpha: Preparing...",
            DCall.update 0 "🛠️  alpha: 4 chars", DCall.stop 0,
            DCall.write (PyVal.str "") true, DCall.start 1 "🛠️  beta: Preparing...",
            DCall.update 1 "🛠️  beta: 1 chars", DCall.stop 1,
            DCall.write (PyVal.str "") true, DCall.start 2 "🛠️  alpha: Preparing...",
            DCall.update 2 "🛠️  alpha: 2 chars"])
    ∧ histFind [(PyVal.str "A", (⟨PyVal.str "alpha", 0, 4⟩ : ToolHistory)),
                (PyVal.str "B", ⟨PyVal.str "beta", 1, 1⟩)] (.str "A") =
        some ⟨PyVal.str "alpha", 0, 4⟩
    ∧ histFind [(PyVal.str "A", (⟨PyVal.str "alpha", 2, 2⟩ : ToolHistory)),
                (PyVal.str "B", ⟨PyVal.str "beta", 1, 1⟩)] (.str "A") =
        some ⟨PyVal.str "alpha", 2, 2⟩ :=
  ⟨rfl, rfl, rfl, rfl⟩

/-- C6 (amended): the new-invocation branch (the code's stand-in for
`upsert`) keys on the *tracked id*, not on ledger membership: a fragment
whose id equals the tracked id leaves the handler state — in particular
the entry's `startedAt` and `observedInputSize` — untouched, while a
fragment whose id differs from the tracked id unconditionally (re)creates
the ledger entry for that id with `startedAt = now` and
`observedInputSize = 0`, even if the id was already present. -/
theorem upsert_amended (now : Nat) (tid name : PyVal) (st : HState)
    (hh : pyHashable tid = true) :
    (pyEq tid st.currentTool = true → newToolBranch now tid name st = .ok (st, []))
    ∧ (pyEq tid st.currentTool = false →
        newToolBranch now tid name st =
          .ok ({ st with
                  currentTool := tid
                  currentSpinner := some st.nextSid
                  nextSid := st.nextSid + 1
                  histories := histSet st.histories tid ⟨name, now, 0⟩ },
               (match st.currentSpinner with
                | some sid => [DCall.stop sid]
                | Option.none => []) ++
               [DCall.write (.str "") true, DCall.start st.nextSid (labelPreparing name)])
        ∧ histFind (histSet st.histories tid ⟨name, now, 0⟩) tid = some ⟨name, now, 0⟩) :=
  ⟨fun heq => newToolBranch_sameId now tid name st heq,
   fun hne => ⟨newToolBranch_newId now tid name st hne hh,
               histFind_histSet_self _ _ _⟩⟩

theorem upsert_amended_witness :
    newToolBranch 3 (.str "T") (.str "fetch") initState =
      .ok ({ currentSpinner := some 0, currentTool := PyVal.str "T",
             histories := [(PyVal.str "T", ⟨PyVal.str "fetch", 3, 0⟩)], nextSid := 1 },
           [DCall.write (PyVal.str "") true, DCall.start 0 "🛠️  fetch: Preparing..."])
    ∧ histFind [(PyVal.str "T", (⟨PyVal.str "fetch", 3, 0⟩ : ToolHistory))] (.str "T") =
        some ⟨PyVal.str "fetch", 3, 0⟩ := by
  have h := (upsert_amended 3 (.str "T") (.str "fetch") initState rfl).2 rfl
  exact h

/-- C8: New-id eviction — on a fragment whose (hashable) id differs from
the tracked id and whose cumulative input is a non-empty string, the
previously active indicator (if any) is stopped without any
success/failure status, a fresh ledger entry for the new id is created
(then immediately updated with the observed size), a new indicator is
begun for the new tool, and the handler ends up tracking the new id. -/
theorem newid_eviction (now : Nat) (tid name : PyVal) (s : String) (st : HState)
    (hs : s ≠ "")
    (hne : pyEq tid st.currentTool = false)
    (hh : pyHashable tid = true) :
    callbackHandler now (fragEv tid name (.str s)) st =
      .ok ({ st with
              currentTool := tid
              currentSpinner := some st.nextSid
              nextSid := st.nextSid + 1
              histories := histSet (histSet st.histories tid ⟨name, now, 0⟩) tid
                             ⟨name, now, s.length⟩ },
           (match st.currentSpinner with
            | some sid => [DCall.stop sid]
            | Option.none => []) ++
           [DCall.write (.str "") true, DCall.start st.nextSid (labelPreparing name),
            DCall.update st.nextSid (labelChars name s.length)])
    ∧ histFind (histSet (histSet st.histories tid ⟨name, now, 0⟩) tid
                  ⟨name, now, s.length⟩) tid = some ⟨name, now, s.length⟩ := by
  constructor
  · rw [callbackHandler_fragEv now tid name (.str s) st (pyTruthy_str hs),
        newToolBranch_newId now tid name st hne hh]
    simp only [Except.instMonad, Bind.bind, Except.bind]
    rw [progressUpdate_char tid name s _ ⟨name, now, 0⟩ hh (histFind_histSet_self _ _ _)]
    rw [if_pos (str_length_pos hs)]
    cases st.currentSpinner <;> simp
  · exact histFind_histSet_self _ _ _

theorem newid_eviction_witness :
    callbackHandler 2 (fragEv (.str "B") (.str "search") (.str "xy"))
      { currentSpinner := some 0, currentTool := PyVal.str "A",
        histories := [(PyVal.str "A", ⟨PyVal.str "lookup", 0, 2⟩)], nextSid := 1 } =
      .ok ({ currentSpinner := some 1, currentTool := PyVal.str "B",
             histories := [(PyVal.str "A", ⟨PyVal.str "lookup", 0, 2⟩),
                           (PyVal.str "B", ⟨PyVal.str "search", 2, 2⟩)], nextSid := 2 },
           [DCall.stop 0, DCall.write (PyVal.str "") true,
            DCall.start 1 "🛠️  search: Preparing...",
            DCall.update 1 "🛠️  search: 2 chars"])
    ∧ histFind [(PyVal.str "A", (⟨PyVal.str "lookup", 0, 2⟩ : ToolHistory)),
                (PyVal.str "B", ⟨PyVal.str "search", 2, 2⟩)] (.str "B") =
        some ⟨PyVal.str "search", 2, 2⟩ := by
  have h := newid_eviction 2 (.str "B") (.str "search") "xy"
    { currentSpinner := some 0, currentTool := PyVal.str "A",
      histories := [(PyVal.str "A", ⟨PyVal.str "lookup", 0, 2⟩)], nextSid := 1 }
    (by decide) rfl rfl
  exact h

/-- C9: an event whose `current_tool_use` record is present but whose
`input` field is absent or falsy (e.g. the empty string) is ignored
entirely: no ledger entry is created, no display call is made, and the
handler state is returned unchanged — an invocation enters the ledger
only once a non-empty cumulative input has been observed. -/
theorem empty_input_ignored (now : Nat) (kvs : List (String × PyVal)) (st : HState)
    (hin : pyTruthy (lookupD kvs "input" PyVal.none) = false) :
    callbackHandler now [("current_tool_use", PyVal.dict kvs)] st = .ok (st, []) := by
  have hred : callbackHandler now [("current_tool_use", PyVal.dict kvs)] st =
      Except.bind (handleToolInput now (PyVal.dict kvs) st)
        (fun r1 => .ok (r1.1, r1.2 ++ [])) := rfl
  rw [hred]
  unfold handleToolInput
  cases htr : pyTruthy (PyVal.dict kvs) with
  | false => rfl
  | true =>
      rw [if_pos rfl,
          show pyGet (PyVal.dict kvs) "input" PyVal.none =
            .ok (lookupD kvs "input" PyVal.none) from rfl]
      simp only [Except.instMonad, Bind.bind, Except.bind, hin]
      rfl

theorem empty_input_ignored_witness :
    callbackHandler 9
      [("current_tool_use", PyVal.dict
        [("toolUseId", .str "T"), ("name", .str "x"), ("input", .str "")])]
      initState = .ok (initState, []) :=
  empty_input_ignored 9
    [("toolUseId", .str "T"), ("name", .str "x"), ("input", .str "")]
    initState rfl

theorem newToolBranch_isOk (now : Nat) (tid name : PyVal) (st : HState)
    (hh : pyHashable tid = true) :
    ∃ out, newToolBranch now tid name st = .ok out := by
  cases hc : pyEq tid st.currentTool with
  | true => exact ⟨_, newToolBranch_sameId now tid name st hc⟩
  | false => exact ⟨_, newToolBranch_newId now tid name st hc hh⟩

theorem progressUpdate_isOk (tid name inp : PyVal) (st : HState)
    (hh : pyHashable tid = true) (hsz : isSized inp = true) :
    ∃ out, progressUpdate tid name inp st = .ok out := by
  unfold progressUpdate
  simp only [hh, if_true]
  cases hfind : histFind st.histories tid with
  | none => exact ⟨_, rfl⟩
  | some h =>
      cases inp with
      | str s =>
          simp only [pyLen, Except.instMonad, Bind.bind, Except.bind]
          split <;> exact ⟨_, rfl⟩
      | list xs =>
          simp only [pyLen, Except.instMonad, Bind.bind, Except.bind]
          split <;> exact ⟨_, rfl⟩
      | dict kvs =>
          simp only [pyLen, Except.instMonad, Bind.bind, Except.bind]
          split <;> exact ⟨_, rfl⟩
      | none => simp [isSized] at hsz
      | bool b => simp [isSized] at hsz
      | int n => simp [isSized] at hsz

theorem handleToolInput_isOk (now : Nat) (ctu : PyVal) (st : HState)
    (hsh : toolUseShapeOk ctu = true) :
    ∃ out, handleToolInput now ctu st = .ok out := by
  cases ctu with
  | dict kvs =>
      unfold handleToolInput
      cases htr : pyTruthy (PyVal.dict kvs) with
      | false => exact ⟨_, rfl⟩
      | true =>
          rw [if_pos rfl,
              show pyGet (PyVal.dict kvs) "input" PyVal.none =
                .ok (lookupD kvs "input" PyVal.none) from rfl]
          simp only [Except.instMonad, Bind.bind, Except.bind]
          cases hin : pyTruthy (lookupD kvs "input" PyVal.none) with
          | false => exact ⟨_, rfl⟩
          | true =>
              simp only [toolUseShapeOk, hin, Bool.not_true, Bool.false_or,
                Bool.and_eq_true] at hsh
              rw [if_pos rfl,
                  show pyGet (PyVal.dict kvs) "toolUseId" PyVal.none =
                    .ok (lookupD kvs "toolUseId" PyVal.none) from rfl,
                  show pyGet (PyVal.dict kvs) "name" PyVal.none =
                    .ok (lookupD kvs "name" PyVal.none) from rfl,
                  show pyGet (PyVal.dict kvs) "input" (PyVal.str "") =
                    .ok (lookupD kvs "input" (PyVal.str "")) from rfl]
              obtain ⟨r1, hr1⟩ := newToolBranch_isOk now
                (lookupD kvs "toolUseId" PyVal.none) (lookupD kvs "name" PyVal.none) st hsh.2
              obtain ⟨r2, hr2⟩ := progressUpdate_isOk
                (lookupD kvs "toolUseId" PyVal.none) (lookupD kvs "name" PyVal.none)
                (lookupD kvs "input" (PyVal.str "")) r1.1 hsh.2 hsh.1
              simp [hr1, hr2, Except.instMonad, Bind.bind, Except.bind]
  | none => exact ⟨_, rfl⟩
  | bool b =>
      cases b with
      | false => exact ⟨_, rfl⟩
      | true => simp [toolUseShapeOk, pyTruthy] at hsh
  | int n =>
      unfold handleToolInput
      cases htr : pyTruthy (PyVal.int n) with
      | false => exact ⟨_, rfl⟩
      | true => simp [toolUseShapeOk, htr] at hsh
  | str s =>
      unfold handleToolInput
      cases htr : pyTruthy (PyVal.str s) with
      | false => exact ⟨_, rfl⟩
      | true => simp [toolUseShapeOk, htr] at hsh
  | list xs =>
      unfold handleToolInput
      cases htr : pyTruthy (PyVal.list xs) with
      | false => exact ⟨_, rfl⟩
      | true => simp [toolUseShapeOk, htr] at hsh

theorem handleAssistantItem_isOk (c : PyVal) (st : HState)
    (hc : assistantItemOk c = true) :
    ∃ tr, handleAssistantItem c st = .ok tr := by
  cases c with
  | dict kvs =>
      unfold handleAssistantItem
      rw [if_pos (show isDict (PyVal.dict kvs) = true from rfl),
          show pyGet (PyVal.dict kvs) "toolUse" PyVal.none =
            .ok (lookupD kvs "toolUse" PyVal.none) from rfl]
      simp only [Except.instMonad, Bind.bind, Except.bind]
      cases htu : pyTruthy (lookupD kvs "toolUse" PyVal.none) with
      | false => exact ⟨_, rfl⟩
      | true =>
          rw [if_pos rfl]
          have hd : isDict (lookupD kvs "toolUse" PyVal.none) = true := by
            simp only [assistantItemOk, htu, Bool.not_true, Bool.false_or] at hc
            exact hc
          cases hl : lookupD kvs "toolUse" PyVal.none with
          | dict rkvs => cases st.currentSpinner <;> exact ⟨_, rfl⟩
          | none => rw [hl] at hd; cases hd
          | bool b => rw [hl] at hd; cases hd
          | int n => rw [hl] at hd; cases hd
          | str s => rw [hl] at hd; cases hd
          | list xs => rw [hl] at hd; cases hd
  | none => exact ⟨_, rfl⟩
  | bool b => exact ⟨_, rfl⟩
  | int n => exact ⟨_, rfl⟩
  | str s => exact ⟨_, rfl⟩
  | list xs => exact ⟨_, rfl⟩

theorem handleAssistantItems_isOk : ∀ (items : List PyVal) (st : HState),
    items.all assistantItemOk = true → ∃ tr, handleAssistantItems items st = .ok tr := by
  intro items
  induction items with
  | nil => intro st _; exact ⟨_, rfl⟩
  | cons c rest ih =>
      intro st hall
      simp only [List.all_cons, Bool.and_eq_true] at hall
      obtain ⟨tr1, h1⟩ := handleAssistantItem_isOk c st hall.1
      obtain ⟨trs, h2⟩ := ih st hall.2
      refine ⟨tr1 ++ trs, ?_⟩
      unfold handleAssistantItems
      simp [h1, h2, Except.instMonad, Bind.bind, Except.bind]

theorem handleUserItem_isOk (now : Nat) (c : PyVal) (st : HState)
    (hc : userItemOk c = true) :
    ∃ out, handleUserItem now c st = .ok out := by
  cases c with
  | dict kvs =>
      unfold handleUserItem
      rw [if_pos (show isDict (PyVal.dict kvs) = true from rfl),
          show pyGet (PyVal.dict kvs) "toolResult" PyVal.none =
            .ok (lookupD kvs "toolResult" PyVal.none) from rfl]
      simp only [Except.instMonad, Bind.bind, Except.bind]
      cases htr : pyTruthy (lookupD kvs "toolResult" PyVal.none) with
      | false => exact ⟨_, rfl⟩
      | true =>
          rw [if_pos rfl]
          cases hl : lookupD kvs "toolResult" PyVal.none with
          | dict rkvs =>
              have hh : pyHashable (lookupD rkvs "toolUseId" PyVal.none) = true := by
                simp only [userItemOk, hl] at hc
                exact hc
              rw [show pyGet (PyVal.dict rkvs) "toolUseId" PyVal.none =
                    .ok (lookupD rkvs "toolUseId" PyVal.none) from rfl,
                  show pyGet (PyVal.dict rkvs) "status" PyVal.none =
                    .ok (lookupD rkvs "status" PyVal.none) from rfl]
              simp only [Except.instMonad, Bind.bind, Except.bind, hh, if_true]
              cases hfind : histFind st.histories (lookupD rkvs "toolUseId" PyVal.none) with
              | none => exact ⟨_, rfl⟩
              | some info => exact ⟨_, rfl⟩
          | none =>
              rw [hl] at htr
              simp [pyTruthy] at htr
          | bool b =>
              rw [hl] at htr
              simp only [userItemOk, hl] at hc
              simp [pyTruthy] at htr
              simp [pyTruthy, htr] at hc
          | int n =>
              rw [hl] at htr
              simp only [userItemOk, hl] at hc
              simp [pyTruthy] at htr
              simp [pyTruthy, htr] at hc
          | str s =>
              rw [hl] at htr
              simp only [userItemOk, hl] at hc
              simp [pyTruthy] at htr
              simp [pyTruthy, htr] at hc
          | list xs =>
              rw [hl] at htr
              simp only [userItemOk, hl] at hc
              simp [pyTruthy] at htr
              simp [pyTruthy, htr] at hc
  | none => exact ⟨_, rfl⟩
  | bool b => exact ⟨_, rfl⟩
  | int n => exact ⟨_, rfl⟩
  | str s => exact ⟨_, rfl⟩
  | list xs => exact ⟨_, rfl⟩

theorem handleUserItems_isOk : ∀ (items : List PyVal) (now : Nat) (st : HState),
    items.all userItemOk = true → ∃ out, handleUserItems now items st = .ok out := by
  intro items
  induction items with
  | nil => intro now st _; exact ⟨_, rfl⟩
  | cons c rest ih =>
      intro now st hall
      simp only [List.all_cons, Bool.and_eq_true] at hall
      obtain ⟨r1, h1⟩ := handleUserItem_isOk now c st hall.1
      obtain ⟨r2, h2⟩ := ih now r1.1 hall.2
      refine ⟨(r2.1, r1.2 ++ r2.2), ?_⟩
      unfold handleUserItems
      simp [h1, h2, Except.instMonad, Bind.bind, Except.bind]

theorem handleMessage_isOk (now : Nat) (m : PyVal) (st : HState)
    (hm : messageShapeOk m = true) :
    ∃ out, handleMessage now m st = .ok out := by
  cases m with
  | dict kvs =>
      unfold handleMessage
      rw [if_pos (show isDict (PyVal.dict kvs) = true from rfl),
          show pyGet (PyVal.dict kvs) "role" PyVal.none =
            .ok (lookupD kvs "role" PyVal.none) from rfl]
      simp only [Except.instMonad, Bind.bind, Except.bind]
      cases hrole : pyEq (lookupD kvs "role" PyVal.none) (PyVal.str "assistant") with
      | true =>
          rw [if_pos rfl,
              show pyGet (PyVal.dict kvs) "content" (PyVal.list []) =
                .ok (lookupD kvs "content" (PyVal.list [])) from rfl]
          simp only [messageShapeOk, hrole, if_true] at hm
          cases hit : pyIter (lookupD kvs "content" (PyVal.list [])) with
          | error e => rw [hit] at hm; cases hm
          | ok items =>
              rw [hit] at hm
              obtain ⟨tr, htr⟩ := handleAssistantItems_isOk items st hm
              simp [hit, htr, Except.instMonad, Bind.bind, Except.bind]
      | false =>
          rw [if_neg (by simp [hrole])]
          cases huser : pyEq (lookupD kvs "role" PyVal.none) (PyVal.str "user") with
          | true =>
              rw [if_pos rfl,
                  show pyGet (PyVal.dict kvs) "content" (PyVal.list []) =
                    .ok (lookupD kvs "content" (PyVal.list [])) from rfl]
              simp only [messageShapeOk, hrole, huser, if_true] at hm
              cases hit : pyIter (lookupD kvs "content" (PyVal.list [])) with
              | error e => rw [hit] at hm; cases hm
              | ok items =>
                  rw [hit] at hm
                  obtain ⟨out, hout⟩ := handleUserItems_isOk items now st hm
                  simp [hit, hout, Except.instMonad, Bind.bind, Except.bind]
          | false =>
              rw [if_neg (by simp [huser])]
              exact ⟨_, rfl⟩
  | none => exact ⟨_, rfl⟩
  | bool b => exact ⟨_, rfl⟩
  | int n => exact ⟨_, rfl⟩
  | str s => exact ⟨_, rfl⟩
  | list xs => exact ⟨_, rfl⟩

theorem handleToolInput_noShape (now : Nat) (ctu : PyVal) (st : HState)
    (h : ctuNoShape ctu = true) :
    handleToolInput now ctu st = .ok (st, []) := by
  cases ctu with
  | dict kvs =>
      unfold handleToolInput
      cases htr : pyTruthy (PyVal.dict kvs) with
      | false => rfl
      | true =>
          rw [if_pos rfl,
              show pyGet (PyVal.dict kvs) "input" PyVal.none =
                .ok (lookupD kvs "input" PyVal.none) from rfl]
          simp only [ctuNoShape, Bool.not_eq_true'] at h
          simp only [Except.instMonad, Bind.bind, Except.bind, h]
          rfl
  | none => rfl
  | bool b =>
      simp only [ctuNoShape, Bool.not_eq_true'] at h
      unfold handleToolInput
      simp [pyTruthy] at h
      simp [h, pyTruthy]
  | int n =>
      simp only [ctuNoShape, Bool.not_eq_true'] at h
      unfold handleToolInput
      rw [h]
      rfl
  | str s =>
      simp only [ctuNoShape, Bool.not_eq_true'] at h
      unfold handleToolInput
      rw [h]
      rfl
  | list xs =>
      simp only [ctuNoShape, Bool.not_eq_true'] at h
      unfold handleToolInput
      rw [h]
      rfl

theorem handleMessage_noRole (now : Nat) (m : PyVal) (st : HState)
    (h : roleRecognized m = false) :
    handleMessage now m st = .ok (st, []) := by
  cases m with
  | dict kvs =>
      unfold handleMessage
      rw [if_pos (show isDict (PyVal.dict kvs) = true from rfl),
          show pyGet (PyVal.dict kvs) "role" PyVal.none =
            .ok (lookupD kvs "role" PyVal.none) from rfl]
      simp only [roleRecognized, Bool.or_eq_false_iff] at h
      simp only [Except.instMonad, Bind.bind, Except.bind, h.1, h.2]
      rfl
  | none => rfl
  | bool b => rfl
  | int n => rfl
  | str s => rfl
  | list xs => rfl

/-- C5 counterexample: the handler is *not* fully defensive.  Two event
records whose fields merely have an unexpected shape raise: a truthy
non-dict `current_tool_use` raises `AttributeError` (`.get` on a str), and
a user-role message whose `content` is `None` raises `TypeError`
(iterating `None`); neither degrades to a silent no-op. -/
theorem classifier_defensive_counterexample :
    callbackHandler 0 [("current_tool_use", PyVal.str "x")] initState =
      .error (.attributeError "get")
    ∧ callbackHandler 0
        [("message", PyVal.dict [("role", .str "user"), ("content", PyVal.none)])]
        initState =
      .error (.typeError "object is not iterable") :=
  ⟨rfl, rfl⟩

/-- C5 (amended): the handler never raises on events whose present, truthy
fields have the expected shapes — `current_tool_use` a dict whose truthy
`input` is a sized value and whose `toolUseId` is hashable, and any
recognized-role message carrying iterable content whose truthy
`toolUse`/`toolResult` entries are dicts (with hashable ids); an event
matching no recognized shape at all (falsy `data`, no truthy tool input,
no recognized message role) is silently dropped with no effect.  Outside
this class the handler can raise (see the counterexample). -/
theorem classifier_defensive_amended (now : Nat)
    (kwargs : List (String × PyVal)) (st : HState) :
    (eventShapeOk kwargs = true → ∃ out, callbackHandler now kwargs st = .ok out)
    ∧ (eventNoShape kwargs = true → callbackHandler now kwargs st = .ok (st, [])) := by
  constructor
  · intro h
    have h' : toolUseShapeOk (lookupD kwargs "current_tool_use" (PyVal.dict [])) = true
        ∧ messageShapeOk (lookupD kwargs "message" (PyVal.dict [])) = true := by
      simpa [eventShapeOk, Bool.and_eq_true] using h
    obtain ⟨h1, h2⟩ := h'
    obtain ⟨r1, hr1⟩ := handleToolInput_isOk now _ st h1
    obtain ⟨r2, hr2⟩ := handleMessage_isOk now _ r1.1 h2
    refine ⟨(r2.1,
      (if pyTruthy (lookupD kwargs "data" (PyVal.str "")) = true
       then [DCall.write (lookupD kwargs "data" (PyVal.str ""))
              (pyTruthy (lookupD kwargs "complete" (PyVal.bool false)))]
       else []) ++ r1.2 ++ r2.2), ?_⟩
    simp only [callbackHandler]
    rw [hr1]
    simp only [Except.instMonad, Bind.bind, Except.bind]
    rw [hr2]
  · intro h
    have h' : pyTruthy (lookupD kwargs "data" (PyVal.str "")) = false
        ∧ ctuNoShape (lookupD kwargs "current_tool_use" (PyVal.dict [])) = true
        ∧ roleRecognized (lookupD kwargs "message" (PyVal.dict [])) = false := by
      simpa [eventNoShape, Bool.and_eq_true, and_assoc] using h
    obtain ⟨hd, hc, hm⟩ := h'
    simp only [callbackHandler]
    rw [handleToolInput_noShape now _ st hc]
    simp only [Except.instMonad, Bind.bind, Except.bind]
    rw [handleMessage_noRole now _ st hm]
    rw [if_neg (by simp [hd])]
    rfl

theorem classifier_defensive_amended_witness :
    (∃ out, callbackHandler 0 [] initState = .ok out)
    ∧ callbackHandler 0 [] initState = .ok (initState, []) :=
  ⟨(classifier_defensive_amended 0 [] initState).1 rfl,
   (classifier_defensive_amended 0 [] initState).2 rfl⟩
